import Mathlib

/-!
Verification of the Glenside interpreter (`src/language/interpreter_new.rs`).

The interpreter evaluates one operator per `Language` node; every operator arm
consumes already-evaluated operand `Value`s.  We embed each arm as a Lean
function on the operand values.  An `ndarray::ArrayD` is modelled semantically
as its shape together with the map from multi-indices to elements; a Rust
`panic!`/`assert!`/`unwrap()` failure (fatal evaluation) is modelled as
`Option.none`.  The element type `DataType` is instantiated at `i32` (the type
used by all exact integer tests), modelled as `Int` together with the explicit
`i32::MIN` constant used to seed the `ReduceMax` fold.  Rust `usize` arithmetic
is modelled with overflow checks (the mode the crate's tests run under):
subtraction underflow and division by zero are fatal.
-/

namespace Glenside

/-- The `DataType::min_value()` at `i32`: the seed of the `ReduceMax` fold in
`interpreter_new.rs`. -/
def minValue : Int := -(2 ^ 31)

/-- An `ndarray::ArrayD<i32>` modelled semantically: a shape together with the
map from multi-indices to elements.  `data` is total; only indices bounded
componentwise by `shape` are meaningful. -/
structure Tensor where
  shape : List Nat
  data : List Nat → Int

/-- The `Access` from `interpreter_new.rs`: a tensor plus the axis that splits
outer from inner dimensions. -/
structure Access where
  tensor : Tensor
  access_axis : Nat

/-- The `PadType` from the language; only `ZeroPadding` exists. -/
inductive PadType where
  | ZeroPadding

/-- Rust `usize` subtraction under overflow checks: underflow is fatal. -/
def usizeSub (a b : Nat) : Option Nat :=
  if b ≤ a then some (a - b) else none

/-- Rust `usize` division: division by zero is fatal. -/
def usizeDiv (a b : Nat) : Option Nat :=
  if b = 0 then none else some (a / b)

/-- Row-major decoding of a flat offset into a multi-index for `dims`: the
index-level inverse of `ndarray`'s standard-layout flattening, used to express
`into_shape` on collapsed dimensions. -/
def unflatten : List Nat → Nat → List Nat
  | [], _ => []
  | _ :: ds, p => (p / ds.prod) :: unflatten ds (p % ds.prod)

/-- Left fold of `+` over `f 0, …, f (n-1)` seeded with `0`, mirroring
`fold(zeros, |acc, t| acc + t)`, `sum_axis` and `.sum()` in the source. -/
def foldSum (n : Nat) (f : Nat → Int) : Int :=
  (List.range n).foldl (fun acc j => acc + f j) 0

/-- Left fold of `*` over `f 0, …, f (n-1)` seeded with `1`, mirroring
`fold(ones, |acc, t| acc * t)` in the source. -/
def foldProd (n : Nat) (f : Nat → Int) : Int :=
  (List.range n).foldl (fun acc j => acc * f j) 1

/-- Left fold of the step `if *v > acc { *v } else { acc }` seeded with
`DataType::min_value()`, mirroring the `ReduceMax` fold in the source. -/
def foldMax (n : Nat) (f : Nat → Int) : Int :=
  (List.range n).foldl (fun acc j => if f j > acc then f j else acc) minValue

/-- The `Language::AccessTensor` arm: wrap a tensor with `access_axis = 0`. -/
def accessTensor (t : Tensor) : Access := ⟨t, 0⟩

/-- The `Language::Access` arm: the code replaces `access_axis` by `dim` with no
range check of any kind, so it never fails. -/
def accessOp (a : Access) (dim : Nat) : Access := ⟨a.tensor, dim⟩

/-- The `Language::AccessSqueeze` arm: reading `shape()[axis]` is fatal when
`axis ≥ ndim`; `assert_eq!(shape[axis], 1)` is fatal when the axis size is not
one; `index_axis_move(Axis(axis), 0)` removes the axis, and `access_axis` is
decremented exactly when `axis < access_axis`. -/
def accessSqueeze (a : Access) (axis : Nat) : Option Access :=
  if axis < a.tensor.shape.length then
    if a.tensor.shape.getD axis 0 = 1 then
      some ⟨⟨a.tensor.shape.eraseIdx axis,
             fun ix => a.tensor.data (ix.insertIdx axis 0)⟩,
            if axis < a.access_axis then a.access_axis - 1 else a.access_axis⟩
    else none
  else none

/-- The `Language::AccessPad` arm, `PadType::ZeroPadding` case: writing
`before_shape[axis]` is fatal when `axis ≥ ndim`; otherwise the result is
`stack(Axis(axis), [zeros(before_shape), tensor, zeros(after_shape)])`
(concatenation along `axis`), written here at the index level, with
`access_axis` preserved. -/
def accessPad (a : Access) (pt : PadType) (axis padBefore padAfter : Nat) :
    Option Access :=
  match pt with
  | PadType.ZeroPadding =>
    if axis < a.tensor.shape.length then
      some ⟨⟨a.tensor.shape.set axis
               (padBefore + a.tensor.shape.getD axis 0 + padAfter),
             fun ix =>
               if padBefore ≤ ix.getD axis 0 ∧
                   ix.getD axis 0 < padBefore + a.tensor.shape.getD axis 0 then
                 a.tensor.data (ix.set axis (ix.getD axis 0 - padBefore))
               else 0⟩,
            a.access_axis⟩
    else none

/-- The `ComputeType::ReLU` case: `mapv(|v| if v >= 0 { v } else { 0 })` with
`access_axis` untouched; `mapv` cannot fail, so this arm is total. -/
def relu (a : Access) : Access :=
  ⟨⟨a.tensor.shape,
    fun ix => if a.tensor.data ix ≥ 0 then a.tensor.data ix else 0⟩,
   a.access_axis⟩

/-- The `ComputeType::ElementwiseAdd` case: `axis_iter(Axis(access_axis))` and the
slice `shape()[access_axis + 1..]` are fatal when `access_axis ≥ ndim`;
otherwise the tensor is summed along axis `access_axis` (the first inner
dimension), the output shape dropping that axis. -/
def elementwiseAdd (a : Access) : Option Access :=
  if a.access_axis < a.tensor.shape.length then
    some ⟨⟨a.tensor.shape.take a.access_axis
             ++ a.tensor.shape.drop (a.access_axis + 1),
           fun ix =>
             foldSum (a.tensor.shape.getD a.access_axis 0)
               (fun j => a.tensor.data (ix.insertIdx a.access_axis j))⟩,
          a.access_axis⟩
  else none

/-- The `ComputeType::ElementwiseMul` case: same structure as `ElementwiseAdd`
with a product fold seeded with ones. -/
def elementwiseMul (a : Access) : Option Access :=
  if a.access_axis < a.tensor.shape.length then
    some ⟨⟨a.tensor.shape.take a.access_axis
             ++ a.tensor.shape.drop (a.access_axis + 1),
           fun ix =>
             foldProd (a.tensor.shape.getD a.access_axis 0)
               (fun j => a.tensor.data (ix.insertIdx a.access_axis j))⟩,
          a.access_axis⟩
  else none

/-- The `ComputeType::ReduceSum` case: the slice `shape()[..access_axis]` is fatal
when `access_axis > ndim`; otherwise the tensor is reshaped to
`shape[..axis] ++ [prod shape[axis..]]` and summed along the collapsed inner
axis, with `access_axis` unchanged. -/
def reduceSum (a : Access) : Option Access :=
  if a.access_axis ≤ a.tensor.shape.length then
    some ⟨⟨a.tensor.shape.take a.access_axis,
           fun ix =>
             foldSum (a.tensor.shape.drop a.access_axis).prod
               (fun p => a.tensor.data
                 (ix ++ unflatten (a.tensor.shape.drop a.access_axis) p))⟩,
          a.access_axis⟩
  else none

/-- The `ComputeType::ReduceMax` case: like `ReduceSum` but folding the maximum
step seeded with `DataType::min_value()` over the collapsed inner axis. -/
def reduceMax (a : Access) : Option Access :=
  if a.access_axis ≤ a.tensor.shape.length then
    some ⟨⟨a.tensor.shape.take a.access_axis,
           fun ix =>
             foldMax (a.tensor.shape.drop a.access_axis).prod
               (fun p => a.tensor.data
                 (ix ++ unflatten (a.tensor.shape.drop a.access_axis) p))⟩,
          a.access_axis⟩
  else none

/-- The `ComputeType::DotProduct` case: the slice `shape()[access_axis + 1..]` is
fatal when `access_axis ≥ ndim`; otherwise, per outer index, an elementwise
product is folded over the first inner axis (seeded with ones of length
`prod shape[axis+1..]`) and the resulting vector is summed. -/
def dotProduct (a : Access) : Option Access :=
  if a.access_axis < a.tensor.shape.length then
    some ⟨⟨a.tensor.shape.take a.access_axis,
           fun ix =>
             foldSum (a.tensor.shape.drop (a.access_axis + 1)).prod
               (fun v => foldProd (a.tensor.shape.getD a.access_axis 0)
                 (fun j => a.tensor.data
                   (ix ++ j :: unflatten
                     (a.tensor.shape.drop (a.access_axis + 1)) v)))⟩,
          a.access_axis⟩
  else none

/-- The window-count computation of the `AccessWindows` arm:
`((size - (filt - 1)) + stride - 1) / stride` in checked `usize`
arithmetic. -/
def numWindows (size filt stride : Nat) : Option Nat :=
  (usizeSub filt 1).bind fun fm1 =>
  (usizeSub size fm1).bind fun d =>
  (usizeSub (d + stride) 1).bind fun num =>
  usizeDiv num stride

/-- The `Language::AccessWindows` arm: asserts a 3-dimensional tensor with
`access_axis = 3` and a 3-dimensional filters shape, computes the window
counts (channel stride hardcoded to 1), and builds the window tensor by
stacking slices; `stack(...).unwrap()` is fatal when any window count is zero.
The element at `(c, x, y, fc, fx, fy)` is the source element at
`(c * 1 + fc, x * x_stride + fx, y * y_stride + fy)`, and the result's
`access_axis` is hardcoded to 3. -/
def accessWindows (a : Access) (fs : List Nat) (sx sy : Nat) : Option Access :=
  if a.tensor.shape.length = 3 ∧ a.access_axis = 3 ∧ fs.length = 3 then
    (numWindows (a.tensor.shape.getD 0 0) (fs.getD 0 0) 1).bind fun nc =>
    (numWindows (a.tensor.shape.getD 1 0) (fs.getD 1 0) sx).bind fun nx =>
    (numWindows (a.tensor.shape.getD 2 0) (fs.getD 2 0) sy).bind fun ny =>
    if 0 < nc ∧ 0 < nx ∧ 0 < ny then
      some ⟨⟨[nc, nx, ny, fs.getD 0 0, fs.getD 1 0, fs.getD 2 0],
             fun ix =>
               match ix with
               | [c, x, y, fc, fx, fy] =>
                   a.tensor.data [c * 1 + fc, x * sx + fx, y * sy + fy]
               | _ => 0⟩,
            3⟩
    else none
  else none

/-- The `Language::AccessCartesianProduct` arm: the slices
`shape()[access_axis..]` are fatal when an `access_axis` exceeds its tensor's
rank; `assert_eq!` of the two inner shapes is fatal when they differ;
`stack(...).unwrap()` over the pair list is fatal when either operand has no
outer points.  Otherwise the result has shape `O0 ++ O1 ++ [2] ++ I`, its
element at `(o0, o1, k, i)` being `a0[o0 ++ i]` for `k = 0` and `a1[o1 ++ i]`
for `k = 1`, with `access_axis = a0.access_axis + a1.access_axis`. -/
def accessCartesianProduct (a0 a1 : Access) : Option Access :=
  if a0.access_axis ≤ a0.tensor.shape.length ∧
      a1.access_axis ≤ a1.tensor.shape.length then
    if a0.tensor.shape.drop a0.access_axis
        = a1.tensor.shape.drop a1.access_axis then
      if 0 < (a0.tensor.shape.take a0.access_axis).prod ∧
          0 < (a1.tensor.shape.take a1.access_axis).prod then
        some ⟨⟨a0.tensor.shape.take a0.access_axis
                 ++ a1.tensor.shape.take a1.access_axis
                 ++ 2 :: a0.tensor.shape.drop a0.access_axis,
               fun ix =>
                 if ((ix.drop a0.access_axis).drop a1.access_axis).headD 0
                     = 0 then
                   a0.tensor.data (ix.take a0.access_axis
                     ++ ((ix.drop a0.access_axis).drop a1.access_axis).tail)
                 else
                   a1.tensor.data ((ix.drop a0.access_axis).take a1.access_axis
                     ++ ((ix.drop a0.access_axis).drop a1.access_axis).tail)⟩,
              a0.access_axis + a1.access_axis⟩
      else none
    else none
  else none

/-- The `Language::SliceShape` arm: `slice(s![u..])` on the shape view panics when
`u` exceeds the number of dimensions; otherwise it yields the suffix of the
shape. -/
def sliceShape (s : List Nat) (u : Nat) : Option (List Nat) :=
  if u ≤ s.length then some (s.drop u) else none

/-- The max-pool composition exercised by the `max_pool2d` test:
`(compute reduce-max (access-windows (access (access-tensor t) 3) (shape 1 2 2) 2 2))`. -/
def maxPool2d (t : Tensor) : Option Access :=
  (accessWindows (accessOp (accessTensor t) 3) [1, 2, 2] 2 2).bind reduceMax

/-- Entry lookup for a rank-3 integer literal tensor (out-of-range entries
read as 0, which is irrelevant for in-range indices). -/
def lookup3 (xs : List (List (List Int))) (ix : List Nat) : Int :=
  match ix with
  | [i, j, k] => ((xs.getD i []).getD j []).getD k 0
  | _ => 0

/-- The input tensor of the `max_pool2d` test. -/
def maxPoolInput : Tensor :=
  ⟨[3, 2, 4], lookup3 [[[1, -2, -4, 5], [3, 6, -8, 0]],
                       [[-5, 6, -8, -10], [0, 0, 0, 8]],
                       [[-9, -20, -15, 10], [-1, 2, 11, 12]]]⟩

end Glenside

namespace Glenside

theorem step_max (a b : Int) : (if b > a then b else a) = max a b := by
  rcases le_or_lt b a with h | h
  · rw [if_neg (not_lt.mpr h), max_eq_left h]
  · rw [if_pos h, max_eq_right h.le]

theorem getD_set_self (l : List Nat) (i v : Nat) (h : i < l.length) :
    (l.set i v).getD i 0 = v := by
  induction l generalizing i with
  | nil => simp at h
  | cons a t ih =>
    cases i with
    | zero => rfl
    | succ n => exact ih n (by simpa using h)

theorem getD_set_ne (l : List Nat) (i j v : Nat) (h : j ≠ i) :
    (l.set i v).getD j 0 = l.getD j 0 := by
  induction l generalizing i j with
  | nil => rfl
  | cons a t ih =>
    cases i with
    | zero => cases j with
      | zero => exact absurd rfl h
      | succ m => rfl
    | succ n => cases j with
      | zero => rfl
      | succ m => exact ih n m (fun hc => h (by rw [hc]))

theorem set_getD_self (l : List Nat) (i : Nat) (h : i < l.length) :
    l.set i (l.getD i 0) = l := by
  induction l generalizing i with
  | nil => simp at h
  | cons a t ih =>
    cases i with
    | zero => rfl
    | succ n => simpa using ih n (by simpa using h)

theorem take_append_len (l1 l2 : List Nat) (n : Nat) (h : l1.length = n) :
    (l1 ++ l2).take n = l1 := by
  induction l1 generalizing n with
  | nil => simp_all
  | cons a t ih =>
    cases n with
    | zero => simp at h
    | succ m => simpa using ih m (by simpa using h)

theorem drop_append_len (l1 l2 : List Nat) (n : Nat) (h : l1.length = n) :
    (l1 ++ l2).drop n = l2 := by
  induction l1 generalizing n with
  | nil => cases h; rfl
  | cons a t ih =>
    cases n with
    | zero => simp at h
    | succ m => simpa using ih m (by simpa using h)

theorem numWindows_eq (size filt stride : Nat) (h1 : 1 ≤ filt) (h2 : filt ≤ size)
    (h3 : 1 ≤ stride) :
    numWindows size filt stride = some ((size - filt + 1 + stride - 1) / stride) ∧
    0 < (size - filt + 1 + stride - 1) / stride := by
  have e1 : usizeSub filt 1 = some (filt - 1) := by simp [usizeSub, h1]
  have e2 : usizeSub size (filt - 1) = some (size - (filt - 1)) := by
    rw [usizeSub, if_pos (by omega)]
  have e3 : usizeSub (size - (filt - 1) + stride) 1
      = some (size - (filt - 1) + stride - 1) := by
    rw [usizeSub, if_pos (by omega)]
  have e4 : size - (filt - 1) + stride - 1 = size - filt + 1 + stride - 1 := by omega
  constructor
  · simp only [numWindows, e1, e2, e3, Option.some_bind, usizeDiv,
      if_neg (by omega : ¬ stride = 0), e4]
  · exact Nat.div_pos (by omega) (by omega)

end Glenside

namespace Glenside

/-- C4 counterexample: `Access(a, 2)` on a 1-dimensional tensor returns an
access whose `access_axis` (2) exceeds the tensor rank (1) instead of failing:
the `Language::Access` arm performs no range check. -/
theorem accessOp_out_of_range_counterexample :
    (accessOp ⟨⟨[2], fun _ => 0⟩, 0⟩ 2).access_axis = 2 ∧
    (accessOp ⟨⟨[2], fun _ => 0⟩, 0⟩ 2).tensor.shape.length <
      (accessOp ⟨⟨[2], fun _ => 0⟩, 0⟩ 2).access_axis := by
  exact ⟨rfl, by decide⟩

/-- C4 (amended): the `Language::Access` arm performs no range check: for
every access `a` and every `d`, including `d > ndim(a.tensor)`, it succeeds
and returns `Access { tensor: a.tensor, access_axis: d }`; the interpreter can
therefore produce accesses violating `access_axis ≤ ndim`. -/
theorem accessOp_no_check_spec (a : Access) (d : Nat) :
    accessOp a d = ⟨a.tensor, d⟩ ∧
    (accessOp a d).tensor = a.tensor ∧ (accessOp a d).access_axis = d :=
  ⟨rfl, rfl, rfl⟩

/-- C5 counterexample: `SliceShape((2, 2), 3)` is fatal (the `ndarray` slice
`s![3..]` on a 2-dimensional shape panics), while the claim says it yields the
empty shape. -/
theorem sliceShape_over_counterexample : sliceShape [2, 2] 3 = none := rfl

/-- C5 (amended): `SliceShape(s, a)` yields the suffix `s[a..]` for every
`a ≤ ndim(s)` — in particular the empty shape at `a = ndim(s)` — and is fatal
for `a > ndim(s)`. -/
theorem sliceShape_spec (s : List Nat) (u : Nat) :
    (u ≤ s.length → sliceShape s u = some (s.drop u)) ∧
    (u = s.length → sliceShape s u = some []) ∧
    (s.length < u → sliceShape s u = none) := by
  refine ⟨fun h => by rw [sliceShape, if_pos h], fun h => ?_, fun h => ?_⟩
  · rw [sliceShape, if_pos (le_of_eq h), h, List.drop_length]
  · rw [sliceShape, if_neg (by omega)]

theorem sliceShape_spec_witness :
    sliceShape [2, 2] 1 = some [2] ∧ sliceShape [2, 2] 2 = some [] ∧
    sliceShape [2, 2] 3 = none :=
  ⟨(sliceShape_spec [2, 2] 1).1 (by decide),
   (sliceShape_spec [2, 2] 2).2.1 (by decide),
   (sliceShape_spec [2, 2] 3).2.2 (by decide)⟩

/-- C9: `Compute(ReLU, ·)` preserves the tensor shape and the `access_axis`
(whatever its value), every element of the result is nonnegative, and the
operation is idempotent elementwise. -/
theorem relu_spec (a : Access) :
    (relu a).tensor.shape = a.tensor.shape ∧
    (relu a).access_axis = a.access_axis ∧
    (∀ ix, 0 ≤ (relu a).tensor.data ix) ∧
    (relu (relu a)).tensor.shape = (relu a).tensor.shape ∧
    (relu (relu a)).access_axis = (relu a).access_axis ∧
    (∀ ix, (relu (relu a)).tensor.data ix = (relu a).tensor.data ix) := by
  refine ⟨rfl, rfl, fun ix => ?_, rfl, rfl, fun ix => ?_⟩
  · by_cases h : a.tensor.data ix ≥ 0
    · simp only [relu, if_pos h]; exact h
    · simp [relu, h]
  · by_cases h : a.tensor.data ix ≥ 0
    · simp [relu, h]
    · simp [relu, h]

end Glenside

namespace Glenside

/-- C6: `AccessSqueeze(a, axis)` with `shape[axis] = 1` removes exactly that
dimension (others unchanged in order and size, so `ndim` drops by 1) and
decrements `access_axis` iff `axis < access_axis`; with `shape[axis] ≠ 1`
evaluation is fatal. -/
theorem accessSqueeze_spec (a : Access) (axis : Nat)
    (h : axis < a.tensor.shape.length) :
    (a.tensor.shape.getD axis 0 = 1 →
      ∃ r, accessSqueeze a axis = some r ∧
        r.tensor.shape = a.tensor.shape.eraseIdx axis ∧
        r.tensor.shape.length = a.tensor.shape.length - 1 ∧
        r.access_axis = (if axis < a.access_axis then a.access_axis - 1
                         else a.access_axis) ∧
        ∀ ix, r.tensor.data ix = a.tensor.data (ix.insertIdx axis 0)) ∧
    (a.tensor.shape.getD axis 0 ≠ 1 → accessSqueeze a axis = none) := by
  constructor
  · intro h1
    refine ⟨_, by rw [accessSqueeze, if_pos h, if_pos h1], rfl, ?_, rfl,
            fun ix => rfl⟩
    show (a.tensor.shape.eraseIdx axis).length = a.tensor.shape.length - 1
    have := List.length_eraseIdx_add_one (l := a.tensor.shape) (i := axis) h
    omega
  · intro h1
    rw [accessSqueeze, if_pos h, if_neg h1]

theorem accessSqueeze_spec_witness :
    ∃ r, accessSqueeze ⟨⟨[1, 2], fun ix => (ix.getD 1 0 : Int) + 5⟩, 1⟩ 0
        = some r ∧
      r.tensor.shape = [2] ∧ r.tensor.shape.length = 1 ∧ r.access_axis = 0 ∧
      ∀ ix, r.tensor.data ix = ((ix.insertIdx 0 0).getD 1 0 : Int) + 5 := by
  obtain ⟨hmain, _⟩ :=
    accessSqueeze_spec ⟨⟨[1, 2], fun ix => (ix.getD 1 0 : Int) + 5⟩, 1⟩ 0
      (by decide)
  exact hmain (by decide)

end Glenside

namespace Glenside

/-- C7: `AccessPad(a, ZeroPadding, axis, b, p)` grows dimension `axis` from
`orig` to `orig + b + p`, leaves every other dimension and the `access_axis`
unchanged, maps the slice `[b : b + orig]` along `axis` to the input tensor,
and fills the padded entries with zero. -/
theorem accessPad_spec (a : Access) (axis b p : Nat)
    (h : axis < a.tensor.shape.length) :
    ∃ r, accessPad a PadType.ZeroPadding axis b p = some r ∧
      r.access_axis = a.access_axis ∧
      r.tensor.shape
        = a.tensor.shape.set axis (b + a.tensor.shape.getD axis 0 + p) ∧
      r.tensor.shape.getD axis 0 = a.tensor.shape.getD axis 0 + b + p ∧
      (∀ j, j ≠ axis → r.tensor.shape.getD j 0 = a.tensor.shape.getD j 0) ∧
      r.tensor.shape.length = a.tensor.shape.length ∧
      (∀ ix, ix.getD axis 0 < b ∨
          b + a.tensor.shape.getD axis 0 ≤ ix.getD axis 0 →
        r.tensor.data ix = 0) ∧
      (∀ ix, ix.length = a.tensor.shape.length →
        ix.getD axis 0 < a.tensor.shape.getD axis 0 →
        r.tensor.data (ix.set axis (b + ix.getD axis 0)) = a.tensor.data ix) := by
  have key : accessPad a PadType.ZeroPadding axis b p
      = some ⟨⟨a.tensor.shape.set axis
                 (b + a.tensor.shape.getD axis 0 + p),
               fun ix =>
                 if b ≤ ix.getD axis 0 ∧
                     ix.getD axis 0 < b + a.tensor.shape.getD axis 0 then
                   a.tensor.data (ix.set axis (ix.getD axis 0 - b))
                 else 0⟩,
              a.access_axis⟩ := by
    rw [accessPad, if_pos h]
  refine ⟨_, key, rfl, rfl, ?_, ?_, ?_, ?_, ?_⟩
  · show (a.tensor.shape.set axis _).getD axis 0 = _
    rw [getD_set_self _ _ _ h]; omega
  · intro j hj
    exact getD_set_ne _ _ _ _ hj
  · exact List.length_set _ _ _
  · intro ix hix
    show (if b ≤ ix.getD axis 0 ∧
        ix.getD axis 0 < b + a.tensor.shape.getD axis 0 then
        a.tensor.data (ix.set axis (ix.getD axis 0 - b)) else 0) = 0
    rw [if_neg (by omega)]
  · intro ix hlen hi
    have hax : axis < ix.length := by omega
    have hg : (ix.set axis (b + ix.getD axis 0)).getD axis 0
        = b + ix.getD axis 0 := getD_set_self _ _ _ (by simpa using hax)
    show (if b ≤ (ix.set axis (b + ix.getD axis 0)).getD axis 0 ∧
        (ix.set axis (b + ix.getD axis 0)).getD axis 0
          < b + a.tensor.shape.getD axis 0 then
        a.tensor.data ((ix.set axis (b + ix.getD axis 0)).set axis
          ((ix.set axis (b + ix.getD axis 0)).getD axis 0 - b)) else 0)
      = a.tensor.data ix
    rw [hg, if_pos (by omega), List.set_set]
    have hsub : b + ix.getD axis 0 - b = ix.getD axis 0 := by omega
    rw [hsub, set_getD_self _ _ hax]

theorem accessPad_spec_witness :
    ∃ r, accessPad ⟨⟨[2], fun ix => (ix.getD 0 0 : Int) + 10⟩, 0⟩
        PadType.ZeroPadding 0 2 4 = some r ∧
      r.access_axis = 0 ∧
      r.tensor.shape = [8] ∧
      r.tensor.data [0] = 0 ∧ r.tensor.data [1] = 0 ∧
      r.tensor.data [2] = 10 ∧ r.tensor.data [3] = 11 ∧
      r.tensor.data [4] = 0 ∧ r.tensor.data [7] = 0 := by
  obtain ⟨r, he, hax, hsh, _, _, _, hzero, hslice⟩ :=
    accessPad_spec ⟨⟨[2], fun ix => (ix.getD 0 0 : Int) + 10⟩, 0⟩ 0 2 4
      (by decide)
  refine ⟨r, he, hax, by simpa using hsh, ?_, ?_, ?_, ?_, ?_, ?_⟩
  · exact hzero [0] (by decide)
  · exact hzero [1] (by decide)
  · simpa using hslice [0] (by decide) (by decide)
  · simpa using hslice [1] (by decide) (by decide)
  · exact hzero [4] (by decide)
  · exact hzero [7] (by decide)

/-- C10: zero-width `AccessPad` is an identity: with `before = after = 0`, the
result has the same shape, the same `access_axis`, and the same elements at
every in-range index. -/
theorem accessPad_zero_identity (a : Access) (axis : Nat)
    (h : axis < a.tensor.shape.length) :
    ∃ r, accessPad a PadType.ZeroPadding axis 0 0 = some r ∧
      r.tensor.shape = a.tensor.shape ∧
      r.access_axis = a.access_axis ∧
      ∀ ix, ix.length = a.tensor.shape.length →
        ix.getD axis 0 < a.tensor.shape.getD axis 0 →
        r.tensor.data ix = a.tensor.data ix := by
  have key : accessPad a PadType.ZeroPadding axis 0 0
      = some ⟨⟨a.tensor.shape.set axis
                 (0 + a.tensor.shape.getD axis 0 + 0),
               fun ix =>
                 if 0 ≤ ix.getD axis 0 ∧
                     ix.getD axis 0 < 0 + a.tensor.shape.getD axis 0 then
                   a.tensor.data (ix.set axis (ix.getD axis 0 - 0))
                 else 0⟩,
              a.access_axis⟩ := by
    rw [accessPad, if_pos h]
  refine ⟨_, key, ?_, rfl, ?_⟩
  · show a.tensor.shape.set axis (0 + a.tensor.shape.getD axis 0 + 0)
      = a.tensor.shape
    rw [Nat.zero_add, Nat.add_zero, set_getD_self _ _ h]
  · intro ix hlen hi
    show (if 0 ≤ ix.getD axis 0 ∧
        ix.getD axis 0 < 0 + a.tensor.shape.getD axis 0 then
        a.tensor.data (ix.set axis (ix.getD axis 0 - 0)) else 0)
      = a.tensor.data ix
    rw [if_pos (by omega), Nat.sub_zero,
      set_getD_self _ _ (by omega : axis < ix.length)]

theorem accessPad_zero_identity_witness :
    ∃ r, accessPad
        ⟨⟨[2, 2], fun ix => (ix.getD 0 0 + 2 * ix.getD 1 0 : Int)⟩, 1⟩
        PadType.ZeroPadding 0 0 0 = some r ∧
      r.tensor.shape = [2, 2] ∧
      r.access_axis = 1 ∧
      r.tensor.data [1, 1] = 3 := by
  obtain ⟨r, he, hsh, hax, hdata⟩ :=
    accessPad_zero_identity
      ⟨⟨[2, 2], fun ix => (ix.getD 0 0 + 2 * ix.getD 1 0 : Int)⟩, 1⟩ 0
      (by decide)
  exact ⟨r, he, hsh, hax, by simpa using hdata [1, 1] (by decide) (by decide)⟩

end Glenside

namespace Glenside

/-- C3 counterexample: on an access with empty inner shape
(`access_axis = ndim = 1`), `Compute(ElementwiseAdd, ·)`,
`Compute(ElementwiseMul, ·)` and `Compute(DotProduct, ·)` are all fatal (the
code slices `shape()[access_axis + 1..]` and iterates `Axis(access_axis)`,
both out of bounds), while the claim says they return the input unchanged. -/
theorem compute_empty_inner_counterexample :
    elementwiseAdd ⟨⟨[1], fun _ => 5⟩, 1⟩ = none ∧
    elementwiseMul ⟨⟨[1], fun _ => 5⟩, 1⟩ = none ∧
    dotProduct ⟨⟨[1], fun _ => 5⟩, 1⟩ = none :=
  ⟨rfl, rfl, rfl⟩

/-- C3 (amended): on an access with empty inner shape (`access_axis = ndim`),
`Compute(ReduceSum, ·)` and `Compute(ReduceMax, ·)` return the input
unchanged (for `ReduceMax` at every index whose value is at least the element
type's minimum, which holds for every `i32`), while `Compute(ElementwiseAdd,
·)`, `Compute(ElementwiseMul, ·)` and `Compute(DotProduct, ·)` are fatal. -/
theorem compute_empty_inner_spec (a : Access)
    (h : a.access_axis = a.tensor.shape.length) :
    (∃ r, reduceSum a = some r ∧ r.tensor.shape = a.tensor.shape ∧
      r.access_axis = a.access_axis ∧
      ∀ ix, r.tensor.data ix = a.tensor.data ix) ∧
    (∃ r, reduceMax a = some r ∧ r.tensor.shape = a.tensor.shape ∧
      r.access_axis = a.access_axis ∧
      ∀ ix, minValue ≤ a.tensor.data ix → r.tensor.data ix = a.tensor.data ix) ∧
    elementwiseAdd a = none ∧ elementwiseMul a = none ∧ dotProduct a = none := by
  have hdrop : a.tensor.shape.drop a.access_axis = [] := by
    rw [h, List.drop_length]
  have htake : a.tensor.shape.take a.access_axis = a.tensor.shape := by
    rw [h, List.take_length]
  have keySum : reduceSum a
      = some ⟨⟨a.tensor.shape.take a.access_axis,
               fun ix =>
                 foldSum (a.tensor.shape.drop a.access_axis).prod
                   (fun p => a.tensor.data
                     (ix ++ unflatten (a.tensor.shape.drop a.access_axis) p))⟩,
              a.access_axis⟩ := by
    rw [reduceSum, if_pos (le_of_eq h)]
  have keyMax : reduceMax a
      = some ⟨⟨a.tensor.shape.take a.access_axis,
               fun ix =>
                 foldMax (a.tensor.shape.drop a.access_axis).prod
                   (fun p => a.tensor.data
                     (ix ++ unflatten (a.tensor.shape.drop a.access_axis) p))⟩,
              a.access_axis⟩ := by
    rw [reduceMax, if_pos (le_of_eq h)]
  refine ⟨⟨_, keySum, htake, rfl, ?_⟩, ⟨_, keyMax, htake, rfl, ?_⟩,
          by rw [elementwiseAdd, if_neg (by omega)],
          by rw [elementwiseMul, if_neg (by omega)],
          by rw [dotProduct, if_neg (by omega)]⟩
  · intro ix
    show foldSum (a.tensor.shape.drop a.access_axis).prod
        (fun p => a.tensor.data
          (ix ++ unflatten (a.tensor.shape.drop a.access_axis) p))
      = a.tensor.data ix
    rw [hdrop]
    show (0 : Int) + a.tensor.data (ix ++ []) = a.tensor.data ix
    rw [List.append_nil, Int.zero_add]
  · intro ix hmv
    show foldMax (a.tensor.shape.drop a.access_axis).prod
        (fun p => a.tensor.data
          (ix ++ unflatten (a.tensor.shape.drop a.access_axis) p))
      = a.tensor.data ix
    rw [hdrop]
    show (if a.tensor.data (ix ++ []) > minValue then a.tensor.data (ix ++ [])
          else minValue) = a.tensor.data ix
    rw [List.append_nil]
    rcases lt_or_le minValue (a.tensor.data ix) with hlt | hle
    · rw [if_pos hlt]
    · rw [if_neg (not_lt.mpr hle)]
      omega

theorem compute_empty_inner_spec_witness :
    (∃ r, reduceSum ⟨⟨[2], fun _ => 3⟩, 1⟩ = some r ∧
      r.tensor.shape = [2] ∧ r.access_axis = 1 ∧
      ∀ ix, r.tensor.data ix = 3) ∧
    (∃ r, reduceMax ⟨⟨[2], fun _ => 3⟩, 1⟩ = some r ∧
      r.tensor.shape = [2] ∧ r.access_axis = 1 ∧
      ∀ ix, r.tensor.data ix = 3) ∧
    elementwiseAdd ⟨⟨[2], fun _ => 3⟩, 1⟩ = none ∧
    elementwiseMul ⟨⟨[2], fun _ => 3⟩, 1⟩ = none ∧
    dotProduct ⟨⟨[2], fun _ => 3⟩, 1⟩ = none := by
  obtain ⟨⟨r1, he1, hs1, ha1, hd1⟩, ⟨r2, he2, hs2, ha2, hd2⟩, h3, h4, h5⟩ :=
    compute_empty_inner_spec ⟨⟨[2], fun _ => 3⟩, 1⟩ (by decide)
  exact ⟨⟨r1, he1, hs1, ha1, fun ix => hd1 ix⟩,
         ⟨r2, he2, hs2, ha2, fun ix => hd2 ix (show minValue ≤ (3:Int) by decide)⟩, h3, h4, h5⟩

end Glenside

namespace Glenside

/-- C1 counterexample: a filters shape with a zero dimension (allowed by the
claim, which only requires `Fc ≤ C`, `Fx ≤ X`, `Fy ≤ Y`) makes the
`filters_c - 1` (`usize`) subtraction underflow, so evaluation is fatal
instead of returning the claimed windows access. -/
theorem accessWindows_zero_filter_counterexample :
    accessWindows ⟨⟨[1, 1, 1], fun _ => 0⟩, 3⟩ [0, 1, 1] 1 1 = none := rfl

/-- C1 (amended): for a 3-dimensional access with `access_axis = 3` and a
3-dimensional filters shape with `1 ≤ Fc ≤ C`, `1 ≤ Fx ≤ X`, `1 ≤ Fy ≤ Y` and
positive strides, `AccessWindows` returns an access of shape
`(Nc, Nx, Ny, Fc, Fx, Fy)` with the ceiling-division window counts, with
`access_axis = 3`, and whose element at `(ic, jx, jy, fc, fx, fy)` is the
source element at `(ic + fc, jx·sx + fx, jy·sy + fy)` — i.e. each outer index
carries the corresponding window slice of the source tensor. -/
theorem accessWindows_spec (t : Tensor) (C X Y Fc Fx Fy sx sy : Nat)
    (ht : t.shape = [C, X, Y])
    (hFc1 : 1 ≤ Fc) (hFcC : Fc ≤ C) (hFx1 : 1 ≤ Fx) (hFxX : Fx ≤ X)
    (hFy1 : 1 ≤ Fy) (hFyY : Fy ≤ Y) (hsx : 1 ≤ sx) (hsy : 1 ≤ sy) :
    ∃ r, accessWindows ⟨t, 3⟩ [Fc, Fx, Fy] sx sy = some r ∧
      r.access_axis = 3 ∧
      r.tensor.shape = [(C - Fc + 1 + 1 - 1) / 1,
                        (X - Fx + 1 + sx - 1) / sx,
                        (Y - Fy + 1 + sy - 1) / sy, Fc, Fx, Fy] ∧
      ∀ ic jx jy fc fx fy,
        r.tensor.data [ic, jx, jy, fc, fx, fy] =
          t.data [ic * 1 + fc, jx * sx + fx, jy * sy + fy] := by
  obtain ⟨ec, pc⟩ := numWindows_eq C Fc 1 hFc1 hFcC (le_refl 1)
  obtain ⟨ex, px⟩ := numWindows_eq X Fx sx hFx1 hFxX hsx
  obtain ⟨ey, py⟩ := numWindows_eq Y Fy sy hFy1 hFyY hsy
  have key : accessWindows ⟨t, 3⟩ [Fc, Fx, Fy] sx sy
      = some ⟨⟨[(C - Fc + 1 + 1 - 1) / 1, (X - Fx + 1 + sx - 1) / sx,
                (Y - Fy + 1 + sy - 1) / sy, Fc, Fx, Fy],
               fun ix =>
                 match ix with
                 | [c, x, y, fc, fx, fy] =>
                     t.data [c * 1 + fc, x * sx + fx, y * sy + fy]
                 | _ => 0⟩,
              3⟩ := by
    rw [accessWindows]
    rw [if_pos (by rw [ht]; exact ⟨rfl, rfl, rfl⟩)]
    show ((numWindows (t.shape.getD 0 0) Fc 1).bind _) = _
    rw [ht]
    simp only [List.getD_cons_zero, List.getD_cons_succ]
    rw [ec, ex, ey]
    show (if 0 < (C - Fc + 1 + 1 - 1) / 1 ∧ 0 < (X - Fx + 1 + sx - 1) / sx ∧
        0 < (Y - Fy + 1 + sy - 1) / sy then _ else none) = _
    rw [if_pos ⟨pc, px, py⟩]
  exact ⟨_, key, rfl, rfl, fun ic jx jy fc fx fy => rfl⟩

theorem accessWindows_spec_witness :
    ∃ r, accessWindows ⟨⟨[3, 3, 3], fun ix =>
          (ix.getD 0 0 + ix.getD 1 0 + ix.getD 2 0 : Int)⟩, 3⟩
        [3, 2, 2] 1 1 = some r ∧
      r.access_axis = 3 ∧
      r.tensor.shape = [1, 2, 2, 3, 2, 2] ∧
      ∀ ic jx jy fc fx fy,
        r.tensor.data [ic, jx, jy, fc, fx, fy] =
          (ic * 1 + fc) + (jx * 1 + fx) + (jy * 1 + fy) := by
  obtain ⟨r, he, hax, hsh, hdata⟩ :=
    accessWindows_spec ⟨[3, 3, 3], fun ix =>
        (ix.getD 0 0 + ix.getD 1 0 + ix.getD 2 0 : Int)⟩ 3 3 3 3 2 2 1 1
      rfl (by decide) (by decide) (by decide) (by decide) (by decide)
      (by decide) (by decide) (by decide)
  refine ⟨r, he, hax, hsh, fun ic jx jy fc fx fy => ?_⟩
  rw [hdata]
  push_cast
  rfl

end Glenside

namespace Glenside

/-- C2 counterexample: two accesses with equal inner shapes but with a
zero-sized outer dimension in the first operand: the claim says the result has
shape `O0 ++ O1 ++ [2] ++ I = [0, 2, 2]`, but `stack(...)` over the empty pair
list fails, so evaluation is fatal. -/
theorem accessCartesianProduct_empty_outer_counterexample :
    accessCartesianProduct ⟨⟨[0, 2], fun _ => 0⟩, 1⟩ ⟨⟨[2], fun _ => 0⟩, 0⟩
      = none := rfl

/-- C2 (amended): for accesses `a0, a1` with equal inner shapes and at least
one outer point each (no zero-sized outer dimension), the result has tensor
shape `O0 ++ O1 ++ [2] ++ I`, `access_axis = |O0| + |O1|`, and at outer index
`(o0, o1)` the length-2 pair dimension holds `a0.tensor[o0]` at position 0 and
`a1.tensor[o1]` at position 1 (the enumeration being lexicographic with `O0`
outermost, which the index arithmetic expresses directly). -/
theorem accessCartesianProduct_spec (a0 a1 : Access)
    (h0 : a0.access_axis ≤ a0.tensor.shape.length)
    (h1 : a1.access_axis ≤ a1.tensor.shape.length)
    (heq : a0.tensor.shape.drop a0.access_axis
      = a1.tensor.shape.drop a1.access_axis)
    (hp0 : 0 < (a0.tensor.shape.take a0.access_axis).prod)
    (hp1 : 0 < (a1.tensor.shape.take a1.access_axis).prod) :
    ∃ r, accessCartesianProduct a0 a1 = some r ∧
      r.tensor.shape = a0.tensor.shape.take a0.access_axis
        ++ a1.tensor.shape.take a1.access_axis
        ++ 2 :: a0.tensor.shape.drop a0.access_axis ∧
      r.access_axis = a0.access_axis + a1.access_axis ∧
      r.access_axis = (a0.tensor.shape.take a0.access_axis).length
        + (a1.tensor.shape.take a1.access_axis).length ∧
      ∀ o0 o1 i, o0.length = a0.access_axis → o1.length = a1.access_axis →
        r.tensor.data (o0 ++ o1 ++ 0 :: i) = a0.tensor.data (o0 ++ i) ∧
        r.tensor.data (o0 ++ o1 ++ 1 :: i) = a1.tensor.data (o1 ++ i) := by
  have key : accessCartesianProduct a0 a1
      = some ⟨⟨a0.tensor.shape.take a0.access_axis
                 ++ a1.tensor.shape.take a1.access_axis
                 ++ 2 :: a0.tensor.shape.drop a0.access_axis,
               fun ix =>
                 if ((ix.drop a0.access_axis).drop a1.access_axis).headD 0
                     = 0 then
                   a0.tensor.data (ix.take a0.access_axis
                     ++ ((ix.drop a0.access_axis).drop a1.access_axis).tail)
                 else
                   a1.tensor.data
                     ((ix.drop a0.access_axis).take a1.access_axis
                       ++ ((ix.drop a0.access_axis).drop a1.access_axis).tail)⟩,
              a0.access_axis + a1.access_axis⟩ := by
    rw [accessCartesianProduct, if_pos ⟨h0, h1⟩, if_pos heq, if_pos ⟨hp0, hp1⟩]
  have hlen0 : (a0.tensor.shape.take a0.access_axis).length
      = a0.access_axis := by
    rw [List.length_take]; omega
  have hlen1 : (a1.tensor.shape.take a1.access_axis).length
      = a1.access_axis := by
    rw [List.length_take]; omega
  refine ⟨_, key, rfl, rfl, by rw [hlen0, hlen1], ?_⟩
  intro o0 o1 i ho0 ho1
  have hd0 : ∀ k : Nat, ∀ tl : List Nat,
      ((o0 ++ o1 ++ k :: i).drop a0.access_axis) = o1 ++ k :: i := by
    intro k tl
    rw [List.append_assoc, drop_append_len o0 _ _ ho0]
  constructor
  · show (if (((o0 ++ o1 ++ 0 :: i).drop a0.access_axis).drop
        a1.access_axis).headD 0 = 0 then
        a0.tensor.data ((o0 ++ o1 ++ 0 :: i).take a0.access_axis
          ++ (((o0 ++ o1 ++ 0 :: i).drop a0.access_axis).drop
            a1.access_axis).tail)
      else _) = a0.tensor.data (o0 ++ i)
    rw [hd0 0 [], drop_append_len o1 _ _ ho1]
    rw [List.append_assoc, take_append_len o0 _ _ ho0]
    rfl
  · show (if (((o0 ++ o1 ++ 1 :: i).drop a0.access_axis).drop
        a1.access_axis).headD 0 = 0 then _
      else a1.tensor.data
        (((o0 ++ o1 ++ 1 :: i).drop a0.access_axis).take a1.access_axis
          ++ (((o0 ++ o1 ++ 1 :: i).drop a0.access_axis).drop
            a1.access_axis).tail)) = a1.tensor.data (o1 ++ i)
    rw [hd0 1 [], drop_append_len o1 _ _ ho1, take_append_len o1 _ _ ho1]
    rfl

theorem accessCartesianProduct_spec_witness :
    ∃ r, accessCartesianProduct
        ⟨⟨[3, 2], fun ix => (10 * ix.getD 0 0 + ix.getD 1 0 : Int)⟩, 1⟩
        ⟨⟨[2, 2], fun ix => (100 * ix.getD 0 0 + ix.getD 1 0 : Int)⟩, 1⟩
      = some r ∧
      r.tensor.shape = [3, 2, 2, 2] ∧
      r.access_axis = 2 ∧
      r.tensor.data [2, 1, 0, 1] = 21 ∧
      r.tensor.data [2, 1, 1, 1] = 101 := by
  obtain ⟨r, he, hsh, hax, _, hdata⟩ :=
    accessCartesianProduct_spec
      ⟨⟨[3, 2], fun ix => (10 * ix.getD 0 0 + ix.getD 1 0 : Int)⟩, 1⟩
      ⟨⟨[2, 2], fun ix => (100 * ix.getD 0 0 + ix.getD 1 0 : Int)⟩, 1⟩
      (by decide) (by decide) (by decide) (by decide) (by decide)
  obtain ⟨hfst, hsnd⟩ := hdata [2] [1] [1] rfl rfl
  exact ⟨r, he, hsh, hax, by simpa using hfst, by simpa using hsnd⟩

end Glenside

namespace Glenside

theorem foldMax_four (f : Nat → Int) :
    foldMax 4 f = max (max (max (max minValue (f 0)) (f 1)) (f 2)) (f 3) := by
  simp only [foldMax, show List.range 4 = [0, 1, 2, 3] from rfl, List.foldl,
    step_max]

/-- C8: the max-pool composition
`Compute(ReduceMax, AccessWindows(Access(AccessTensor(t), 3), Shape(1,2,2), 2, 2))`
on any `i32` tensor of shape `(3, 2, 4)` yields an access of shape `(3, 1, 2)`
with `access_axis = 3` whose elements are the per-window maxima; on the
`max_pool2d` test input it yields `[[[6, 5]], [[6, 8]], [[2, 12]]]`. -/
theorem maxPool2d_spec :
    (∀ t : Tensor, t.shape = [3, 2, 4] →
      (∀ c, c < 3 → ∀ x, x < 2 → ∀ y, y < 4 → minValue ≤ t.data [c, x, y]) →
      ∃ r, maxPool2d t = some r ∧ r.tensor.shape = [3, 1, 2] ∧
        r.access_axis = 3 ∧
        ∀ c, c < 3 → ∀ y, y < 2 →
          r.tensor.data [c, 0, y] =
            max (max (max (t.data [c, 0, y * 2]) (t.data [c, 0, y * 2 + 1]))
              (t.data [c, 1, y * 2])) (t.data [c, 1, y * 2 + 1])) ∧
    (maxPool2d maxPoolInput).map (fun r =>
      (r.tensor.shape, r.access_axis, r.tensor.data [0, 0, 0],
       r.tensor.data [0, 0, 1], r.tensor.data [1, 0, 0],
       r.tensor.data [1, 0, 1], r.tensor.data [2, 0, 0],
       r.tensor.data [2, 0, 1])) =
      some ([3, 1, 2], 3, 6, 5, 6, 8, 2, 12) := by
  constructor
  · intro t ht hrange
    have keyW : accessWindows ⟨t, 3⟩ [1, 2, 2] 2 2
        = some ⟨⟨[3, 1, 2, 1, 2, 2],
                 fun ix => match ix with
                   | [c, x, y, fc, fx, fy] =>
                       t.data [c * 1 + fc, x * 2 + fx, y * 2 + fy]
                   | _ => 0⟩, 3⟩ := by
      rw [accessWindows]
      rw [if_pos (show t.shape.length = 3 ∧ 3 = 3 ∧
        ([1, 2, 2] : List Nat).length = 3 from ⟨by rw [ht]; rfl, rfl, rfl⟩)]
      show ((numWindows (t.shape.getD 0 0) 1 1).bind _) = _
      rw [ht]
      simp only [List.getD_cons_zero, List.getD_cons_succ]
      rw [show numWindows 3 1 1 = some 3 from rfl,
        show numWindows 2 2 2 = some 1 from rfl,
        show numWindows 4 2 2 = some 2 from rfl]
      simp only [Option.some_bind]
      rw [if_pos (show (0:Nat) < 3 ∧ (0:Nat) < 1 ∧ (0:Nat) < 2 from
        ⟨by decide, by decide, by decide⟩)]
    have keyR : maxPool2d t
        = some ⟨⟨[3, 1, 2],
                 fun ix =>
                   foldMax 4 (fun p =>
                     (match (ix ++ unflatten [1, 2, 2] p : List Nat) with
                      | [c, x, y, fc, fx, fy] =>
                          t.data [c * 1 + fc, x * 2 + fx, y * 2 + fy]
                      | _ => 0))⟩, 3⟩ := by
      show (accessWindows ⟨t, 3⟩ [1, 2, 2] 2 2).bind reduceMax = _
      rw [keyW]
      exact rfl
    refine ⟨_, keyR, rfl, rfl, ?_⟩
    intro c hc y hy
    have h0 : minValue ≤ t.data [c, 0, y * 2] :=
      hrange c hc 0 (by omega) (y * 2) (by omega)
    show foldMax 4 (fun p =>
        (match ([c, 0, y] ++ unflatten [1, 2, 2] p : List Nat) with
         | [c', x, y', fc, fx, fy] =>
             t.data [c' * 1 + fc, x * 2 + fx, y' * 2 + fy]
         | _ => 0)) = _
    rw [foldMax_four]
    show max (max (max (max minValue
          (t.data [c * 1 + 0, 0 * 2 + 0, y * 2 + 0]))
          (t.data [c * 1 + 0, 0 * 2 + 0, y * 2 + 1]))
          (t.data [c * 1 + 0, 0 * 2 + 1, y * 2 + 0]))
          (t.data [c * 1 + 0, 0 * 2 + 1, y * 2 + 1]) = _
    simp only [Nat.mul_one, Nat.add_zero, Nat.zero_mul, Nat.zero_add]
    rw [max_eq_right h0]
  · rfl

theorem maxPool2d_spec_witness :
    ∃ r, maxPool2d maxPoolInput = some r ∧ r.tensor.shape = [3, 1, 2] ∧
      r.access_axis = 3 ∧
      ∀ c, c < 3 → ∀ y, y < 2 →
        r.tensor.data [c, 0, y] =
          max (max (max (maxPoolInput.data [c, 0, y * 2])
            (maxPoolInput.data [c, 0, y * 2 + 1]))
            (maxPoolInput.data [c, 1, y * 2]))
            (maxPoolInput.data [c, 1, y * 2 + 1]) :=
  maxPool2d_spec.1 maxPoolInput rfl (by decide)

end Glenside
